import Mathlib

/-!
Verification development for the NetLogo-tk experiment engine (nlogo.py).

The definitions below are a shallow embedding of the classes
`SteppedValue`, `EnumeratedValue`, `Experiment`, `Sample`, `Batch` and
`Script` of nlogo.py.  Python numbers are modelled as `Nat`/`Int`/`Rat`,
Python strings as `String`, fallible operations return `Option`/`Except`,
and mutation of object state is modelled by explicit state passing.
-/

/-- Decimal digit character, as produced by Python's `"%d"` formatting. -/
def digitChar (d : Nat) : Char := Char.ofNat (48 + d)

/-- Little-endian decimal digit characters, by structural recursion on a
fuel that bounds the number to convert (so that concrete instances
compute by kernel reduction). -/
def natCharsRevFuel : Nat → Nat → List Char
  | 0, n => [digitChar n]
  | fuel+1, n =>
    if n < 10 then [digitChar n]
    else digitChar (n % 10) :: natCharsRevFuel fuel (n / 10)

/-- Little-endian list of decimal digit characters of a natural number. -/
def natCharsRev (n : Nat) : List Char := natCharsRevFuel n n

/-- Big-endian decimal digit characters of `n`, i.e. the characters of
Python's `"%d" % n`. -/
def natChars (n : Nat) : List Char := (natCharsRev n).reverse

/-- Python `"%d" % n` for a natural number. -/
def natStr (n : Nat) : String := (natChars n).asString

/-- Number of decimal digits of `n`; this is `Batch.n_digits` in nlogo.py,
`len("%d"%(n))`. -/
def nDigits (n : Nat) : Nat := (natCharsRev n).length

/-- Characters of Python `"%0*d" % (w, n)`: the decimal digits of `n`,
zero-padded on the left to width `w` (never truncated). -/
def padChars (w n : Nat) : List Char :=
  List.replicate (w - (natChars n).length) '0' ++ natChars n

/-- Python `"%0*d" % (w, n)`. -/
def padNum (w n : Nat) : String := (padChars w n).asString

/-- Python `"%*d" % (w, n)`: space-padded on the left to width `w`. -/
def spacePadNum (w n : Nat) : String :=
  (List.replicate (w - (natChars n).length) ' ' ++ natChars n).asString

/-- Python `math.ceil(a / b)` for natural `a`, `b` (with `b > 0`). -/
def natCeilDiv (a b : Nat) : Nat := (a + b - 1) / b

/-- Python `int(math.log10(n))` for `n ≥ 1`: one less than the number of
decimal digits (total-ized to `0` at `n = 0`, where Python raises). -/
def intLog10 (n : Nat) : Nat := nDigits n - 1

/-- Decoder for decimal character strings: `foldl (a*10 + digit)`.  Used to
prove that zero-padded decimal names are injective in the number. -/
def charsToNat (l : List Char) : Nat :=
  l.foldl (fun a c => a * 10 + (c.toNat - 48)) 0

/-- Longest common prefix of two character lists
(Python `os.path.commonprefix` on a pair of strings). -/
def commonPrefixChars : List Char → List Char → List Char
  | a :: as, b :: bs => if a = b then a :: commonPrefixChars as bs else []
  | _, _ => []

/-- Python `os.path.commonprefix([s, t])`. -/
def strCommonPrefix (s t : String) : String :=
  (commonPrefixChars s.toList t.toList).asString

/-- Whether `p` occurs at the start of `l`. -/
def isPrefList : List Char → List Char → Bool
  | [], _ => true
  | _ :: _, [] => false
  | a :: as, b :: bs => a = b && isPrefList as bs

/-- Whether `needle` occurs contiguously anywhere in `hay`
(Python's `needle in hay` on strings). -/
def isSubList (needle : List Char) : List Char → Bool
  | [] => isPrefList needle []
  | c :: rest => isPrefList needle (c :: rest) || isSubList needle rest

/-- Python `needle in hay` for strings. -/
def strContainsSub (needle hay : String) : Bool :=
  isSubList needle.toList hay.toList

/-- Python `s[:-k]`: drop the last `k` characters. -/
def strDropLast (s : String) (k : Nat) : String :=
  (s.toList.take (s.toList.length - k)).asString

/-- Split a character list at every occurrence of `c`
(Python `s.split(c)` for a one-character separator). -/
def splitOnCharList (c : Char) : List Char → List (List Char)
  | [] => [[]]
  | d :: rest =>
    let r := splitOnCharList c rest
    if d = c then [] :: r
    else
      match r with
      | h :: t => (d :: h) :: t
      | [] => [[d]]

/-- Python `s.split(c)` for a one-character separator `c`. -/
def strSplitOnChar (c : Char) (s : String) : List String :=
  (splitOnCharList c s.toList).map List.asString

/-!  SteppedValue (nlogo.py lines 852-884).

Numbers are embedded as rationals: the Python code works on floats, and
the claims about it concern the arithmetic-sequence logic, not rounding.
-/

/-- Embedding of the `SteppedValue` class: the data of a stepped value
parameter exploration in a BehaviorSpace. -/
structure SteppedValue where
  varName : String
  first : ℚ
  step : ℚ
  last : ℚ
  values : List ℚ
deriving Repr, DecidableEq

/-- The materialization loop of `SteppedValue.__init__`:
`values = [first]; while values[-1] < last: values.append(step + values[-1])`,
expressed as a recursion on the current trailing element.  The positivity
hypothesis on `step` reflects that the loop body is only reachable, after
the constructor's validation, when `step > 0`. -/
def steppedLoop (step last : ℚ) (hstep : 0 < step) (cur : ℚ) : List ℚ :=
  if h : cur < last then cur :: steppedLoop step last hstep (cur + step)
  else [cur]
termination_by (⌈(last - cur) / step⌉).toNat
decreasing_by
  have h2 : (0:ℚ) < (last - cur) / step := div_pos (by linarith) hstep
  have h3 : (0:ℤ) < ⌈(last - cur) / step⌉ := by
    rw [Int.lt_ceil]
    push_cast
    exact h2
  have h1 : (last - (cur + step)) / step = (last - cur) / step - ((1:ℤ):ℚ) := by
    push_cast
    field_simp
    ring
  rw [h1, Int.ceil_sub_int]
  omega

/-- Embedding of `SteppedValue.__init__` (nlogo.py 857-871): validates the
sign of `step` against the direction `first → last`, then materializes the
value list.  Invalid combinations raise `ValueError`, embedded as
`Except.error`. -/
def SteppedValue.make (varName : String) (first step last : ℚ) :
    Except String SteppedValue :=
  if step < 0 ∧ first < last then
    .error ("negative step with start < stop: " ++ varName)
  else if 0 < step ∧ last < first then
    .error ("positive step with start > stop: " ++ varName)
  else if step = 0 ∧ first ≠ last then
    .error ("step 0.0 with start != stop: " ++ varName)
  else
    .ok { varName := varName, first := first, step := step, last := last,
          values :=
            if h : 0 < step then steppedLoop step last h first
            else [first] }

/-- Embedding of the `EnumeratedValue` class: an explicit list of values
for one variable.  Values are kept abstract as strings/numbers. -/
inductive PyVal where
  | num (q : ℚ)
  | str (s : String)
  | pyBool (b : Bool)
deriving Repr, DecidableEq

/-- Embedding of `EnumeratedValue` (nlogo.py 890-907). -/
structure EnumeratedValue where
  varName : String
  values : List PyVal
deriving Repr, DecidableEq

/-- Embedding of the `Experiment` class's fields (nlogo.py 934-963). -/
structure Experiment where
  name : String
  setup : String
  go : String
  final : String
  timeLimit : Int
  exitCondition : String
  metrics : List String
  metricLabels : List String
  steppedValueSet : List SteppedValue
  enumeratedValueSet : List EnumeratedValue
  repetitions : Nat
  sequentialRunOrder : Bool
  runMetricsEveryStep : Bool
  results : String
  addedProgress : Bool
  addedFinalParametrics : Bool
deriving Repr, DecidableEq

/-- The comment marker `Experiment.param_comment`. -/
def paramComment : String := "; nlogo.py added this code to save parameters and metrics"

/-- The comment marker `Experiment.prog_comment`. -/
def progComment : String := "; nlogo.py added this code to save progress"

/-- Embedding of `Experiment.__init__` (nlogo.py 941-963).  In particular:
if the supplied `metric_labels` list's length differs from that of
`metrics`, `metricLabels` becomes a fresh copy of `metrics`. -/
def experimentInit (name setup go final : String) (time_limit : Int)
    (exit_condition : String) (metrics : List String)
    (stepped_values : List SteppedValue) (enumerated_values : List EnumeratedValue)
    (repetitions : Nat) (sequential_run_order run_metrics_every_step : Bool)
    (results : String) (metric_labels : List String) : Experiment :=
  { name := name, setup := setup, go := go, final := final,
    timeLimit := time_limit, exitCondition := exit_condition,
    metrics := metrics,
    metricLabels := if metric_labels.length ≠ metrics.length then metrics.map id
                    else metric_labels,
    steppedValueSet := stepped_values,
    enumeratedValueSet := enumerated_values,
    repetitions := repetitions,
    sequentialRunOrder := sequential_run_order,
    runMetricsEveryStep := run_metrics_every_step,
    results := results,
    addedProgress := strContainsSub progComment setup,
    addedFinalParametrics := strContainsSub paramComment final }

/-- Embedding of `Experiment.getNRuns` (nlogo.py 974-980). -/
def Experiment.getNRuns (e : Experiment) : Nat :=
  let runs := e.repetitions
  let runs := e.steppedValueSet.foldl (fun r p => r * p.values.length) runs
  e.enumeratedValueSet.foldl (fun r p => r * p.values.length) runs

/-!  Options (the `Opts` class, nlogo.py 2684-3099).

Only the fields consumed by the embedded operations are modelled.  The
field `settings` stands for `Opts.getSetting`, which delegates to the
external NetLogo model reader (`self.netlogo_object.getSetting`): it maps
a parameter name to its current setting string.
-/

structure Opts where
  split_reps : Bool
  rng_param : String
  rng_switch : String
  rng_no_switch : String
  dir_params : List String
  file_params : List String
  max_batch : Nat
  batch_size : Nat
  sep_expt_dirs : Bool
  dir : String
  arg_xml : String
  add_outdir : Bool
  settings : String → String
  progress : Bool
  dup_setup : Bool
  task_limit : Nat
  jobname : String
  concur : Nat
  days : ℚ
  gigaram : ℚ
  limit_ram : Bool
  cluster : String
  project : String

/-- Embedding of `Opts.isParamSet` (nlogo.py 2979-2987). -/
def Opts.isParamSet (o : Opts) (param_name : String) : Bool :=
  if o.rng_switch ≠ "" ∧ o.rng_switch = param_name then true
  else if o.rng_no_switch ≠ "" ∧ o.rng_no_switch = param_name then true
  else if param_name ∈ o.dir_params ∨ param_name ∈ o.file_params then true
  else false

/-- Embedding of the static method `Batch.outdir` (nlogo.py 2093-2111). -/
def Batch.outdir (opts : Opts) (expt_name : String) (expt_i expt_n : Nat) : String :=
  let n_batch := if expt_n ≤ opts.max_batch then 1 else natCeilDiv expt_n opts.batch_size
  let n_batch_digits := nDigits n_batch
  let n_expt_digits := nDigits expt_n
  let batch_size := if n_batch = 1 then expt_n else opts.batch_size
  let batch_n := natCeilDiv expt_i batch_size
  let x := strDropLast opts.arg_xml 4
  if n_batch = 1 then
    if opts.sep_expt_dirs then
      opts.dir ++ "/" ++ expt_name ++ "-" ++ padNum n_expt_digits expt_i
    else opts.dir
  else
    if opts.sep_expt_dirs then
      opts.dir ++ "/" ++ x ++ "-" ++ padNum n_batch_digits batch_n ++ "/" ++
        expt_name ++ "-" ++ padNum n_expt_digits expt_i
    else
      opts.dir ++ "/" ++ x ++ "-" ++ padNum n_batch_digits batch_n

/-- Characters of `s` after the last occurrence of `c`
(Python `s[(1 + s.rfind(c)):]`, for `c` present in `s`). -/
def afterLastChar (c : Char) (s : String) : String :=
  ((s.toList.reverse.takeWhile (fun d => d ≠ c)).reverse).asString

/-- Characters of `s` from the last occurrence of `c` on, inclusive
(Python `s[s.rfind(c):]`, for `c` present in `s`). -/
def fromLastChar (c : Char) (s : String) : String :=
  (c :: (s.toList.reverse.takeWhile (fun d => d ≠ c)).reverse).asString

/-- Characters of `s` strictly before the last occurrence of `c`
(Python `s[:s.rfind(c)]`, for `c` present in `s`). -/
def beforeLastChar (c : Char) (s : String) : String :=
  ((((s.toList.reverse.dropWhile (fun d => d ≠ c))).drop 1).reverse).asString

/-- Embedding of `Opts.getUniqueFilename` (nlogo.py 3076-3099): derives a
per-run unique file name for a file-valued parameter.  Note the source
keeps the dot in `suff` and formats another one, which is reproduced. -/
def Opts.getUniqueFilename (o : Opts) (parname pname : String) (run nruns : Nat) : String :=
  let fname := o.settings parname
  let nz := 1 + intLog10 (nruns - 1)
  let uname := if o.add_outdir || o.dir_params.length = 0 then
      Batch.outdir o pname run nruns ++ "/"
    else ""
  if fname = "" ∨ fname = "0" ∨ fname = "NA" then
    uname ++ pname ++ "-" ++ parname ++ "-" ++ spacePadNum nz run
  else
    let basen := if strContainsSub "/" fname then afterLastChar '/' fname else fname
    if strContainsSub "." basen then
      let stem := beforeLastChar '.' basen
      let suff := fromLastChar '.' basen
      uname ++ stem ++ "-" ++ spacePadNum nz run ++ "." ++ suff
    else
      uname ++ basen ++ "-" ++ spacePadNum nz run

/-- Embedding of `Experiment.addProgress` (nlogo.py 1409-1446): injects
progress-reporting code into `setup` and `go`, once. -/
def Experiment.addProgress (opts : Opts) (e : Experiment) : Experiment :=
  if e.addedProgress then e
  else
    let f0 := "behaviorspace-experiment-name \"-\" behaviorspace-run-number \"-prog.txt\""
    let f1 := if e.results ≠ "." ∧ ¬opts.dup_setup then
        "\"" ++ e.results ++ "/\" " ++ f0
      else f0
    let f := "(word " ++ f1 ++ ")"
    { e with
      setup := e.setup ++
        ("\n" ++ progComment ++ "\nfile-open " ++ f ++ "\n" ++
         "file-print (word \"0 / " ++ toString e.timeLimit ++
         ": \" date-and-time)\nfile-close"),
      go := e.go ++
        ("\nfile-open " ++ f ++ "\n" ++
         "file-print (word ticks \" / " ++ toString e.timeLimit ++
         ": \" date-and-time)\n" ++ "file-close"),
      addedProgress := true }

/-!  Experiment.uniqueSettings (nlogo.py 982-1060).

The per-variable counters (`counters`/`maxes` dictionaries, keyed in
insertion order) are modelled as a list of entries; `dictInsert` has the
semantics of a Python dict assignment.  The `while not done` loop is
modelled with an explicit fuel, returning `none` when the fuel runs out.
-/

/-- One entry of the `counters`/`maxes` dictionaries of `uniqueSettings`:
a variable name, its current counter and the counter's bound. -/
structure CtrEntry where
  varName : String
  ctr : Nat
  max : Nat
deriving Repr, DecidableEq

/-- Python dict assignment `d[v] = (0, m)` on the insertion-ordered entry
list: overwrite in place if the key exists, else append. -/
def dictInsert : List CtrEntry → String → Nat → List CtrEntry
  | [], v, m => [⟨v, 0, m⟩]
  | c :: rest, v, m =>
      if c.varName = v then ⟨v, 0, m⟩ :: rest else c :: dictInsert rest v m

/-- Dict lookup `counters[v]` (with `0` for a missing key, which the
source never exercises). -/
def lookupCtr (l : List CtrEntry) (v : String) : Nat :=
  match l.find? (fun c => c.varName = v) with
  | some c => c.ctr
  | none => 0

/-- The construction of the `counters`/`maxes` dictionaries in
`uniqueSettings` (nlogo.py 989-997): all stepped axes, then the
enumerated axes not pinned by `opts.isParamSet`. -/
def buildCounters (e : Experiment) (opts : Opts) : List CtrEntry :=
  let l1 := e.steppedValueSet.foldl
    (fun acc p => dictInsert acc p.varName p.values.length) []
  e.enumeratedValueSet.foldl
    (fun acc p => if opts.isParamSet p.varName then acc
                  else dictInsert acc p.varName p.values.length) l1

/-- The odometer increment at the bottom of the `while` loop
(nlogo.py 1051-1056): increment the first counter; on reaching its max,
reset it and carry into the next. -/
def incrCounters : List CtrEntry → List CtrEntry
  | [] => []
  | c :: rest =>
      if c.ctr + 1 = c.max then ⟨c.varName, 0, c.max⟩ :: incrCounters rest
      else ⟨c.varName, c.ctr + 1, c.max⟩ :: rest

/-- The loop's stop condition `all([v == 0 for v in counters.values()])`
(nlogo.py 1058). -/
def allZero (l : List CtrEntry) : Bool := l.all (fun c => c.ctr = 0)

/-- The `enumerated_values` list built at the top of each `while`
iteration (nlogo.py 1010-1027): the current single value of every counted
axis, then any RNG-switch setting. -/
def emitBase (e : Experiment) (opts : Opts) (counters : List CtrEntry) :
    List EnumeratedValue :=
  (e.steppedValueSet.map fun p =>
    ⟨p.varName, [PyVal.num (p.values.getD (lookupCtr counters p.varName) 0)]⟩)
  ++ ((e.enumeratedValueSet.filter (fun p => ¬ opts.isParamSet p.varName)).map fun p =>
    ⟨p.varName, [p.values.getD (lookupCtr counters p.varName) (PyVal.str "")]⟩)
  ++ (if opts.rng_switch ≠ "" then [⟨opts.rng_switch, [PyVal.str "true"]⟩]
      else if opts.rng_no_switch ≠ "" then [⟨opts.rng_no_switch, [PyVal.str "false"]⟩]
      else [])

/-- The per-child directory/file parameter axes appended inside the `for j`
loop (nlogo.py 1036-1042). -/
def dirfileEntries (opts : Opts) (pname : String) (i n : Nat) : List EnumeratedValue :=
  opts.dir_params.map (fun p => ⟨p, [PyVal.str (Batch.outdir opts pname i n)]⟩)
  ++ opts.file_params.map (fun p => ⟨p, [PyVal.str (opts.getUniqueFilename p pname i n)]⟩)

/-- The child experiment's name `"%s-%0*d" % (self.name, Batch.n_digits(n), i)`
(nlogo.py 1034). -/
def mkChildName (pname : String) (w i : Nat) : String :=
  pname ++ "-" ++ padNum w i

/-- The `for j in range(int(self.repetitions / reps))` loop of
`uniqueSettings` (nlogo.py 1033-1049): emits `cnt` child experiments,
extending the shared `enumerated_values` list and advancing the run
index `i`.  Returns the children, the final list and the final index. -/
def emitChildren (e : Experiment) (opts : Opts) (n nd : Nat)
    (useMetrics : List String) (reps : Nat) :
    Nat → List EnumeratedValue → Nat → (List Experiment × List EnumeratedValue × Nat)
  | 0, ev, i => ([], ev, i)
  | j+1, ev, i =>
      let ev2 := ev ++ dirfileEntries opts e.name i n
      let child := experimentInit (mkChildName e.name nd i) e.setup e.go e.final
        e.timeLimit e.exitCondition useMetrics [] ev2 reps
        e.sequentialRunOrder e.runMetricsEveryStep (Batch.outdir opts e.name i n) []
      let rest := emitChildren e opts n nd useMetrics reps j ev2 (i+1)
      (child :: rest.1, rest.2.1, rest.2.2)

/-- The `while not done` loop of `uniqueSettings` (nlogo.py 1009-1058),
with explicit fuel: emit the children of the current counter state,
increment the odometer, stop when it has rolled over to all zeros. -/
def uniqueLoop (e : Experiment) (opts : Opts) (n nd : Nat)
    (useMetrics : List String) (reps cnt : Nat) :
    Nat → List CtrEntry → Nat → List Experiment → Option (List Experiment)
  | 0, _, _, _ => none
  | fuel+1, counters, i, acc =>
      let ev := emitBase e opts counters
      let r3 := emitChildren e opts n nd useMetrics reps cnt ev i
      let acc2 := acc ++ r3.1
      let counters2 := incrCounters counters
      if allZero counters2 then some acc2
      else uniqueLoop e opts n nd useMetrics reps cnt fuel counters2 r3.2.2 acc2

/-- Product of the counter bounds: the number of counted combinations. -/
def prodMaxes (l : List CtrEntry) : Nat := (l.map (fun c => c.max)).prod

/-- Embedding of `Experiment.uniqueSettings` (nlogo.py 982-1060): the
array of all runs of this experiment with unique parameter settings.
Returns `none` only if the loop fuel `prodMaxes + 1` is insufficient
(which the correctness theorem below shows cannot happen on well-formed
input). -/
def Experiment.uniqueSettings (e : Experiment) (opts : Opts) :
    Option (List Experiment) :=
  let counters := buildCounters e opts
  let n := if opts.split_reps then e.getNRuns else e.getNRuns / e.repetitions
  let useMetrics := if opts.rng_param ≠ "" ∧ opts.rng_param ∉ e.metrics then
      e.metrics ++ [opts.rng_param]
    else e.metrics
  let reps := if opts.split_reps then 1 else e.repetitions
  let cnt := e.repetitions / reps
  uniqueLoop e opts n (nDigits n) useMetrics reps cnt
    (prodMaxes counters + 1) counters 1 []

/-!  Experiment.writeExperimentsToFile (nlogo.py 1267-1319).

The file system is abstracted away: the function returns the list of
(document name, experiments written to it) pairs, on the success path of
the source (`io.open` succeeding for every document).
-/

/-- Embedding of `Experiment.writeExperimentsToFile` (nlogo.py 1267-1319):
one document when the count is within `opts.max_batch`, else
`ceil(count / opts.batch_size)` numbered documents of `opts.batch_size`
experiments each (the last possibly shorter). -/
def writeExperimentsToFile (file_name : String) (expts : List Experiment)
    (opts : Opts) : List (String × List Experiment) :=
  let xs := if opts.progress then expts.map (Experiment.addProgress opts) else expts
  if xs.length ≤ opts.max_batch then
    [(file_name, xs)]
  else
    let n_batch := natCeilDiv xs.length opts.batch_size
    (List.range n_batch).map (fun batch =>
      let batch_str := padNum (nDigits n_batch) (batch + 1)
      let batch_file := strDropLast file_name 4 ++ "-" ++ batch_str ++ ".xml"
      let batch_min := batch * opts.batch_size
      let batch_max := min (batch_min + opts.batch_size) xs.length
      (batch_file, (xs.drop batch_min).take (batch_max - batch_min)))

/-!  Script (nlogo.py 2171-2363) and Batch (nlogo.py 2046-2158). -/

/-- Python `int(q)` for a rational: truncation toward zero. -/
def ratTrunc (q : ℚ) : Int := if 0 ≤ q then ⌊q⌋ else ⌈q⌉

/-- Embedding of the `Script` class's fields (nlogo.py 2178-2188). -/
structure ScriptS where
  opts : Opts
  dir : String
  n_expt : Nat
  name : String
  gigaram : ℚ
  concur : Nat
  time : Int
  need_sleeper : Bool
  task_size : Nat

/-- Embedding of `Script.__init__` (nlogo.py 2178-2188). -/
def scriptInit (opts : Opts) (n_expt : Nat) : ScriptS :=
  let ns := decide (0 < opts.task_limit ∧ opts.task_limit < n_expt)
  { opts := opts,
    dir := opts.dir,
    n_expt := n_expt,
    name := if opts.jobname ≠ "" then opts.jobname else strDropLast opts.arg_xml 4,
    gigaram := if opts.limit_ram then opts.gigaram else 0,
    concur := if opts.concur ≤ n_expt then opts.concur else n_expt,
    time := ratTrunc (opts.days * 86400),
    need_sleeper := ns,
    task_size := if ns then opts.task_limit else n_expt }

/-- The number of waves written into the sleeper script by
`Script.saveSleeperScript` (nlogo.py 2341): `math.ceil(n_expt / task_limit)`. -/
def ScriptS.sleeperNSleep (s : ScriptS) : Nat :=
  natCeilDiv s.n_expt s.opts.task_limit

/-- The wave offsets driven by the generated sleeper script
(nlogo.py 2342-2351): the shell loop `for n in seq 0 (nsleep-1)` submits
the batch script with argument `expr $n \* task_limit`. -/
def ScriptS.sleeperWaveOffsets (s : ScriptS) : List Nat :=
  (List.range s.sleeperNSleep).map (fun n => n * s.opts.task_limit)

/-- The ways `Batch.__init__` can fail (nlogo.py 2052-2084): the
unconditional `expts[1]` access, a duplicate name, no common name
nomenclature, or a gap in the expected numbered names.  All but the first
are raised as `NLogoError(..., bug = True)`. -/
inductive BatchError where
  | indexError
  | duplicate (name : String)
  | noCommonName
  | missingName (name : String)
deriving Repr, DecidableEq

/-- Embedding of the `Batch` class's fields (nlogo.py 2052-2086). -/
structure BatchS where
  n_expt : Nat
  n_expt_digits : Nat
  xml : String
  task_limit : Nat
  n_batch : Nat
  n_batch_digits : Nat
  batch_size : Nat
  expt_name : String
  n_runs : Nat
  script : ScriptS

/-- The per-experiment loop of `Batch.__init__` (nlogo.py 2065-2073):
duplicate detection, common-prefix folding and run counting. -/
def batchLoop : List Experiment → List String → String → Nat →
    Except BatchError (String × Nat)
  | [], _, pfx, runs => .ok (pfx, runs)
  | ex :: rest, seen, pfx, runs =>
      if ex.name ∈ seen then .error (.duplicate ex.name)
      else batchLoop rest (ex.name :: seen) (strCommonPrefix ex.name pfx)
        (runs + ex.getNRuns)

/-- The name-coverage check of `Batch.__init__` (nlogo.py 2078-2084):
for every `i` in `[0, k)`, the name `pfx ++ pad(nd, i+1)` must occur. -/
def checkNamesFrom (names : List String) (pfx : String) (nd : Nat) :
    Nat → Nat → Except BatchError Unit
  | _, 0 => .ok ()
  | i, k+1 =>
      let expected := pfx ++ padNum nd (i + 1)
      if expected ∈ names then checkNamesFrom names pfx nd (i+1) k
      else .error (.missingName expected)

/-- Embedding of `Batch.__init__` (nlogo.py 2052-2086).  Note the
unconditional read of `expts[1].name` (an `IndexError` for lists shorter
than two) before any consistency checking. -/
def batchInit (opts : Opts) (expts : List Experiment) : Except BatchError BatchS :=
  let n_expt := expts.length
  let n_expt_digits := nDigits n_expt
  let n_batch := if n_expt ≤ opts.max_batch then 1
                 else natCeilDiv n_expt opts.batch_size
  let n_batch_digits := nDigits n_batch
  let batch_size := if n_batch = 1 then n_expt else opts.batch_size
  match expts[1]? with
  | none => .error .indexError
  | some e1 =>
    match batchLoop expts [] e1.name 0 with
    | .error err => .error err
    | .ok (expt_name, n_runs) =>
      if expt_name = "" then .error .noCommonName
      else
        match checkNamesFrom (expts.map (fun ex => ex.name)) expt_name
            n_expt_digits 0 n_expt with
        | .error err => .error err
        | .ok _ =>
          .ok { n_expt := n_expt, n_expt_digits := n_expt_digits,
                xml := opts.arg_xml, task_limit := opts.task_limit,
                n_batch := n_batch, n_batch_digits := n_batch_digits,
                batch_size := batch_size, expt_name := expt_name,
                n_runs := n_runs, script := scriptInit opts n_expt }

/-!  Sample (nlogo.py 1823-2032).

A `Sample`'s bounds may reference other `Sample` objects; object identity
and in-place mutation are modelled with an arena: the collection of
samples is a list, references are indices into it, and every operation
returns the updated list.  `sys.exit(1)` and uncaught exceptions are
embedded as `Except.error`; the recursion of `minimumValue` carries an
explicit fuel, with `none` meaning the fuel ran out (the source would
still be recursing). -/

/-- A Python runtime value held by a `Sample` field. -/
inductive SVal where
  | noneV
  | s (x : String)
  | i (n : Int)
  | q (x : ℚ)
  | b (x : Bool)
deriving Repr, DecidableEq

/-- A `Sample` bound after `Sample.read` wiring: a plain value, a
reference to a model `Parameter` (carrying its value), or a reference to
a sibling `Sample` (by arena index). -/
inductive BVal where
  | v (x : SVal)
  | pRef (varname : String) (value : SVal)
  | sRef (id : Nat)
deriving Repr, DecidableEq

/-- Embedding of the `Sample` class's fields (nlogo.py 1830-1866).
`varname` is `self.param.varname`; `isChooser`/`chooserOptions` embed the
`isinstance(self.param, Chooser)` tests and the chooser's option list. -/
structure SampleS where
  varname : String
  isChooser : Bool
  chooserOptions : List String
  datatype : String
  setting : SVal
  minimum : BVal
  maximum : BVal
  options : List String
  one_of : Bool
  min_is_param : Bool
  max_is_param : Bool
  sampled : Bool
  last_sample : SVal
  tagged : Bool
deriving Repr, DecidableEq

/-- Embedding of the `minimum == "one-of"` branch of `Sample.__init__`
(nlogo.py 1841-1851), for a non-chooser parameter: the option list is the
`"|"`-separated `maximum` column. -/
def sampleInitOneOf (varname datatype maximum : String) : SampleS :=
  let choices := strSplitOnChar '|' maximum
  { varname := varname, isChooser := false, chooserOptions := [],
    datatype := datatype, setting := .s "NA",
    minimum := .v (.i 0), maximum := .v (.i choices.length),
    options := choices, one_of := true,
    min_is_param := false, max_is_param := false,
    sampled := false, last_sample := .noneV, tagged := false }

/-- Embedding of `Chooser.getOptionValue` (nlogo.py 633-637): the choice
at a valid index, `None` (plus a BUG message) otherwise. -/
def getOptionValue (choices : List String) (ix : Int) : SVal :=
  if 0 ≤ ix ∧ ix < choices.length then .s (choices.getD ix.toNat "")
  else .noneV

/-- Python `int(x)` on a sample value (`None` for the failing cases). -/
def svalToInt : SVal → Option Int
  | .i n => some n
  | .q x => some (ratTrunc x)
  | .s x => x.toInt?
  | .b x => some (if x then 1 else 0)
  | .noneV => none

/-- Python `float(x)` on a sample value (`None` for the failing cases;
string parsing is restricted to integer literals, which is all the
sources of these strings produce). -/
def svalToRat : SVal → Option ℚ
  | .i n => some (n : ℚ)
  | .q x => some x
  | .s x => (x.toInt?).map (fun n => (n : ℚ))
  | .b x => some (if x then 1 else 0)
  | .noneV => none

/-- Embedding of `Sample.minimumValue` (nlogo.py 1904-1927).  The result
is `none` when the fuel runs out, otherwise the returned value together
with the updated arena; `Except.error` is the circular-reference
`sys.exit(1)` (or an out-of-range arena index, impossible in the source's
object graph). -/
def minimumValue : Nat → List SampleS → Nat → Option (Except String (SVal × List SampleS))
  | 0, _, _ => none
  | fuel+1, st, id =>
    match st[id]? with
    | none => some (.error "IndexError")
    | some self =>
      let st1 := st.set id { self with tagged := true }
      let finish := fun (r : SVal) (st' : List SampleS) =>
        match st'[id]? with
        | some s2 => some (Except.ok (r, st'.set id { s2 with tagged := false }))
        | none => some (Except.error "IndexError")
      if self.minimum = BVal.v (.s "NA") then finish (.s "NA") st1
      else if self.one_of then finish (.i 0) st1
      else if self.isChooser then
        match self.minimum with
        | .v x => finish x st1
        | _ => finish .noneV st1
      else if self.min_is_param then
        match self.minimum with
        | .pRef _ value => finish value st1
        | .sRef r =>
          (match st1[r]? with
           | none => some (.error "IndexError")
           | some other =>
             if other.sampled then finish other.last_sample st1
             else if other.tagged then
               some (.error ("circular references: " ++ self.varname))
             else
               match minimumValue fuel st1 r with
               | none => none
               | some (.error e) => some (.error e)
               | some (.ok (v, st2)) => finish v st2)
        | .v _ => finish .noneV st1
      else
        match self.minimum with
        | .v x => finish x st1
        | _ => finish .noneV st1

/-- Embedding of `Sample.maximumValue` (nlogo.py 1929-1952), the mirror
image of `minimumValue` (with `len(options)` in the one-of branch). -/
def maximumValue : Nat → List SampleS → Nat → Option (Except String (SVal × List SampleS))
  | 0, _, _ => none
  | fuel+1, st, id =>
    match st[id]? with
    | none => some (.error "IndexError")
    | some self =>
      let st1 := st.set id { self with tagged := true }
      let finish := fun (r : SVal) (st' : List SampleS) =>
        match st'[id]? with
        | some s2 => some (Except.ok (r, st'.set id { s2 with tagged := false }))
        | none => some (Except.error "IndexError")
      if self.maximum = BVal.v (.s "NA") then finish (.s "NA") st1
      else if self.one_of then finish (.i self.options.length) st1
      else if self.isChooser then
        match self.maximum with
        | .v x => finish x st1
        | _ => finish .noneV st1
      else if self.max_is_param then
        match self.maximum with
        | .pRef _ value => finish value st1
        | .sRef r =>
          (match st1[r]? with
           | none => some (.error "IndexError")
           | some other =>
             if other.sampled then finish other.last_sample st1
             else if other.tagged then
               some (.error ("circular references: " ++ self.varname))
             else
               match maximumValue fuel st1 r with
               | none => none
               | some (.error e) => some (.error e)
               | some (.ok (v, st2)) => finish v st2)
        | .v _ => finish .noneV st1
      else
        match self.maximum with
        | .v x => finish x st1
        | _ => finish .noneV st1

/-- The random draws consumed by one `Sample.sample()` call: Python's
`rnd.randint` (both bounds inclusive), `rnd.uniform` and `rnd.random`. -/
structure Rng where
  randint : Int → Int → Int
  uniform : ℚ → ℚ → ℚ
  random : ℚ

/-- Embedding of `Sample.sample` (nlogo.py 1954-1992): make a random
sample of the parameter, caching it in `last_sample` and setting
`sampled`.  The `rng` argument supplies the random draws of this one
call. -/
def sampleDraw (fuel : Nat) (rng : Rng) (st : List SampleS) (id : Nat) :
    Option (Except String (SVal × List SampleS)) :=
  match st[id]? with
  | none => some (.error "IndexError")
  | some self =>
    let finish := fun (last : SVal) (st' : List SampleS) =>
      match st'[id]? with
      | some s2 => some (Except.ok (last,
          st'.set id { s2 with last_sample := last, sampled := true }))
      | none => some (Except.error "IndexError")
    if self.minimum = BVal.v (.s "NA") ∨ self.maximum = BVal.v (.s "NA") then
      if self.isChooser then
        match self.setting with
        | .i ix => finish (getOptionValue self.chooserOptions ix) st
        | _ => finish .noneV st
      else finish self.setting st
    else if self.one_of then
      let rint := rng.randint 0 self.options.length
      match self.options[rint.toNat]? with
      | none => some (.error "IndexError")
      | some v => finish (.s v) st
    else if self.minimum = self.maximum then
      if self.isChooser then
        match self.maximum with
        | .v (.i ix) => finish (getOptionValue self.chooserOptions ix) st
        | _ => finish .noneV st
      else
        match self.minimum with
        | .pRef _ value => finish value st
        | .v x => finish x st
        | .sRef _ => finish .noneV st
    else if self.datatype = "integer" then
      match minimumValue fuel st id with
      | none => none
      | some (.error e) => some (.error e)
      | some (.ok (mn, st2)) =>
        match maximumValue fuel st2 id with
        | none => none
        | some (.error e) => some (.error e)
        | some (.ok (mx, st3)) =>
          match svalToInt mn, svalToInt mx with
          | some minm, some maxm =>
            let rint := rng.randint minm maxm
            if self.isChooser then
              finish (getOptionValue self.chooserOptions rint) st3
            else finish (.i rint) st3
          | _, _ => some (.error "ValueError")
    else if self.datatype = "numeric" then
      match minimumValue fuel st id with
      | none => none
      | some (.error e) => some (.error e)
      | some (.ok (mn, st2)) =>
        match maximumValue fuel st2 id with
        | none => none
        | some (.error e) => some (.error e)
        | some (.ok (mx, st3)) =>
          match svalToRat mn, svalToRat mx with
          | some minm, some maxm => finish (.q (rng.uniform minm maxm)) st3
          | _, _ => some (.error "ValueError")
    else if self.datatype = "boolean" then
      finish (.b (decide (rng.random < 1/2))) st
    else
      finish self.setting st

/-- Embedding of `Sample.newSample` (nlogo.py 1994-1995): invalidate the
cached draw. -/
def newSample (st : List SampleS) (id : Nat) : List SampleS :=
  match st[id]? with
  | some s => st.set id { s with sampled := false }
  | none => st

/-- Mixed-radix value of a counter state: the number of combinations
emitted before reaching it during the odometer enumeration. -/
def ctrVal : List CtrEntry → Nat
  | [] => 0
  | c :: rest => c.ctr + c.max * ctrVal rest

/-- A counter state is valid when every counter is below its bound. -/
def ctrValid (l : List CtrEntry) : Prop := ∀ c ∈ l, c.ctr < c.max

/-- The variables counted by `uniqueSettings`: all stepped axes, then the
enumerated axes not pinned by `opts.isParamSet`. -/
def countedVars (e : Experiment) (opts : Opts) : List String :=
  e.steppedValueSet.map (fun p => p.varName) ++
  (e.enumeratedValueSet.filter (fun p => ! opts.isParamSet p.varName)).map
    (fun p => p.varName)

/-- The cardinalities of the counted axes, in counter order. -/
def countedCards (e : Experiment) (opts : Opts) : List Nat :=
  e.steppedValueSet.map (fun p => p.values.length) ++
  (e.enumeratedValueSet.filter (fun p => ! opts.isParamSet p.varName)).map
    (fun p => p.values.length)

/-- The counter entries of `buildCounters` when all counted variables are
distinct (so that the dict inserts are plain appends). -/
def baseEntries (e : Experiment) (opts : Opts) : List CtrEntry :=
  e.steppedValueSet.map (fun p => ⟨p.varName, 0, p.values.length⟩) ++
  (e.enumeratedValueSet.filter (fun p => ! opts.isParamSet p.varName)).map
    (fun p => ⟨p.varName, 0, p.values.length⟩)

/-!  Concrete fixtures used by the theorems below. -/

/-- A benign option set: no pinned parameters, no splitting artifacts. -/
def optsA : Opts :=
  { split_reps := true, rng_param := "", rng_switch := "", rng_no_switch := "",
    dir_params := [], file_params := [], max_batch := 100, batch_size := 1,
    sep_expt_dirs := false, dir := ".", arg_xml := "a.xml", add_outdir := false,
    settings := fun _ => "", progress := false, dup_setup := false,
    task_limit := 0, jobname := "", concur := 0, days := 0, gigaram := 0,
    limit_ram := false, cluster := "SLURM", project := "" }

/-- An experiment with no axes and one repetition. -/
def mkSimpleExpt (n : String) : Experiment :=
  experimentInit n "" "" "" 0 "" [] [] [] 1 true true "." []

/-- An experiment with only enumerated axes and one repetition. -/
def mkEnumExpt (n : String) (ev : List EnumeratedValue) : Experiment :=
  experimentInit n "" "" "" 0 "" [] [] ev 1 true true "." []

/-- Options that pin the variable "rs" (as an RNG switch). -/
def optsC1 : Opts := { optsA with rng_switch := "rs" }

/-- An experiment whose three non-pinned axes have one value each, plus a
pinned axis ("rs") with ten values. -/
def exptC1 : Experiment :=
  mkEnumExpt "x"
    [⟨"p1", [PyVal.str "a"]⟩, ⟨"p2", [PyVal.str "b"]⟩, ⟨"p3", [PyVal.str "c"]⟩,
     ⟨"rs", [PyVal.str "1", PyVal.str "2", PyVal.str "3", PyVal.str "4",
             PyVal.str "5", PyVal.str "6", PyVal.str "7", PyVal.str "8",
             PyVal.str "9", PyVal.str "10"]⟩]

/-- An experiment with two non-pinned enumerated axes of two and three
values and one repetition. -/
def exptC1b : Experiment :=
  mkEnumExpt "x"
    [⟨"b", [PyVal.str "true", PyVal.str "false"]⟩,
     ⟨"n", [PyVal.num 0, PyVal.num (1/2), PyVal.num 1]⟩]

/-- Experiments named run-1 … run-9 with run-5 missing. -/
def es5C5 : List Experiment :=
  [1, 2, 3, 4, 6, 7, 8, 9].map (fun i => mkSimpleExpt ("run-" ++ natStr i))

/-- A well-named pair of experiments. -/
def es2C5 : List Experiment := [mkSimpleExpt "x1", mkSimpleExpt "x2"]

/-- Twelve distinctly named experiments. -/
def es12C6 : List Experiment :=
  (List.range 12).map (fun i => mkSimpleExpt ("r" ++ natStr i))

/-- Options with a document threshold of 10 and a group size of 5. -/
def optsC6 : Opts := { optsA with max_batch := 10, batch_size := 5 }

/-- A random source whose integer draw is the constant `k`. -/
def rngConst (k : Int) : Rng :=
  { randint := fun _ _ => k, uniform := fun a _ => a, random := 0 }

/-- The inclusive range contract of Python's `random.randint(a, b)`:
it can return any integer `N` with `a <= N <= b`. -/
abbrev randintCanReturn (a b r : Int) : Prop := a ≤ r ∧ r ≤ b

/-- A one-of categorical sample over the two options "a" and "b". -/
def sampleOneOfC8 : SampleS := sampleInitOneOf "p" "string" "a|b"

/-- An integer sample over the literal range [0, 10], with `varname` `vn`. -/
def intSample (vn : String) : SampleS :=
  { varname := vn, isChooser := false, chooserOptions := [],
    datatype := "integer", setting := .s "0",
    minimum := .v (.i 0), maximum := .v (.i 10), options := [],
    one_of := false, min_is_param := false, max_is_param := false,
    sampled := false, last_sample := .noneV, tagged := false }

/-- An integer sample whose minimum bound references the sample at arena
index `r`. -/
def sampleRefMin (vn : String) (r : Nat) : SampleS :=
  { intSample vn with minimum := .sRef r, min_is_param := true }

/-- The two-sample arena of the circular reference A.min → B, B.min → A. -/
def stC3 : List SampleS := [sampleRefMin "A" 1, sampleRefMin "B" 0]

/-- A two-sample arena: index 0's minimum references index 1. -/
def stC4 : List SampleS := [sampleRefMin "A" 1, intSample "B"]

/-- The arena `stC4` after index 1 has drawn (and cached) the value 3. -/
def stC4s : List SampleS :=
  [sampleRefMin "A" 1, { intSample "B" with sampled := true, last_sample := .i 3 }]

/-!  Theorems.  First, supporting lemmas about the decimal formatting
helpers, then one theorem (with witness or counterexample) per claim. -/

theorem digitChar_toNat : ∀ d, d < 10 → (digitChar d).toNat = 48 + d := by
  decide

theorem natCharsRevFuel_congr : ∀ (f1 f2 n : Nat), n ≤ f1 → n ≤ f2 →
    natCharsRevFuel f1 n = natCharsRevFuel f2 n := by
  intro f1
  induction f1 with
  | zero =>
    intro f2 n h1 h2
    obtain rfl : n = 0 := by omega
    cases f2 <;> simp [natCharsRevFuel]
  | succ f ih =>
    intro f2 n h1 h2
    cases f2 with
    | zero =>
      obtain rfl : n = 0 := by omega
      simp [natCharsRevFuel]
    | succ g =>
      by_cases hn : n < 10
      · simp [natCharsRevFuel, hn]
      · simp only [natCharsRevFuel, hn, if_false]
        have hlt : n / 10 < n := Nat.div_lt_self (by omega) (by omega)
        exact congrArg _ (ih g (n / 10) (by omega) (by omega))

theorem natCharsRev_unfold (n : Nat) : natCharsRev n =
    if n < 10 then [digitChar n] else digitChar (n % 10) :: natCharsRev (n / 10) := by
  rw [natCharsRev]
  cases n with
  | zero => simp [natCharsRevFuel]
  | succ m =>
    rw [natCharsRevFuel]
    by_cases hn : m + 1 < 10
    · simp [hn]
    · simp only [hn, if_false]
      have hlt : (m + 1) / 10 < m + 1 := Nat.div_lt_self (by omega) (by omega)
      exact congrArg _ (natCharsRevFuel_congr m ((m+1)/10) ((m+1)/10)
        (by omega) (le_refl _))

theorem natCharsRev_ne_nil (n : Nat) : natCharsRev n ≠ [] := by
  rw [natCharsRev_unfold]
  split
  · simp
  · simp

theorem foldDec_natChars (n : Nat) : ∀ a,
    (natChars n).foldl (fun a c => a * 10 + (c.toNat - 48)) a
      = a * 10 ^ (natChars n).length + n := by
  induction n using Nat.strong_induction_on with
  | _ n ih =>
    intro a
    by_cases h : n < 10
    · rw [natChars, natCharsRev_unfold]
      simp only [h, if_true, List.reverse_singleton, List.foldl_cons,
        List.foldl_nil, List.length_singleton]
      rw [digitChar_toNat n h]
      omega
    · rw [natChars, natCharsRev_unfold]
      simp only [h, if_false, List.reverse_cons]
      rw [List.foldl_append]
      have hrec := ih (n / 10) (Nat.div_lt_self (by omega) (by omega)) a
      rw [natChars] at hrec
      rw [hrec]
      simp only [List.foldl_cons, List.foldl_nil, List.length_append,
        List.length_reverse, List.length_singleton]
      rw [digitChar_toNat (n % 10) (Nat.mod_lt n (by omega))]
      have hdm := Nat.div_add_mod n 10
      have : 48 + n % 10 - 48 = n % 10 := by omega
      rw [this]
      ring_nf
      omega
  

theorem foldDec_zeros (k : Nat) :
    (List.replicate k '0').foldl (fun a c => a * 10 + (c.toNat - 48)) 0 = 0 := by
  induction k with
  | zero => rfl
  | succ k ih =>
    rw [List.replicate_succ, List.foldl_cons]
    simpa using ih

theorem charsToNat_padChars (w n : Nat) : charsToNat (padChars w n) = n := by
  rw [charsToNat, padChars, List.foldl_append, foldDec_zeros, foldDec_natChars]
  simp

theorem padNum_injective (w : Nat) : ∀ a b, padNum w a = padNum w b → a = b := by
  intro a b h
  have hd : padChars w a = padChars w b := by
    have := congrArg String.data h
    simpa [padNum, List.asString] using this
  calc a = charsToNat (padChars w a) := (charsToNat_padChars w a).symm
  _ = charsToNat (padChars w b) := by rw [hd]
  _ = b := charsToNat_padChars w b

theorem strAppend_left_cancel {p a b : String} (h : p ++ a = p ++ b) : a = b := by
  have hd := congrArg String.data h
  simp only [String.data_append] at hd
  exact String.ext (List.append_cancel_left hd)

theorem mkChildName_injective (p : String) (w : Nat) :
    ∀ a b, mkChildName p w a = mkChildName p w b → a = b := by
  intro a b h
  simp only [mkChildName] at h
  exact padNum_injective w a b (strAppend_left_cancel h)

/-- C9: for every `Experiment` construction, after the constructor returns,
`len(metrics)` equals `len(metricLabels)`: when the supplied metric-labels
list's length differs from the metrics list's length (including the
default empty list), `metricLabels` is set to a fresh copy of `metrics`,
establishing the invariant for all inputs. -/
theorem C9_experimentInit_metric_length
    (name setup go final : String) (time_limit : Int) (exit_condition : String)
    (metrics : List String) (stepped_values : List SteppedValue)
    (enumerated_values : List EnumeratedValue) (repetitions : Nat)
    (sequential_run_order run_metrics_every_step : Bool) (results : String)
    (metric_labels : List String) :
    (experimentInit name setup go final time_limit exit_condition metrics
      stepped_values enumerated_values repetitions sequential_run_order
      run_metrics_every_step results metric_labels).metrics.length =
    (experimentInit name setup go final time_limit exit_condition metrics
      stepped_values enumerated_values repetitions sequential_run_order
      run_metrics_every_step results metric_labels).metricLabels.length := by
  simp only [experimentInit]
  split
  · simp
  · next h => simp at h; omega

/-- C2 (failing input): `SteppedValue.__init__("x", first = 10, step = -2,
last = 0)` passes validation (a negative step with start above stop is
accepted), but the materialization loop only extends the list while its
trailing element is below `last`, so the value list is just `[10]` — not
the decreasing sequence from `first` down to `last` that the validation
implies and the specification states. -/
theorem C2_steppedValue_negative_step :
    SteppedValue.make "x" 10 (-2) 0 =
      .ok { varName := "x", first := 10, step := -2, last := 0, values := [10] }
    ∧ ([(10:ℚ)] ≠ [10, 8, 6, 4, 2, 0]) := by
  constructor
  · rfl
  · decide

/-- C10: `Batch.__init__` reads `expts[1].name` before any invariant
checking, so every experiment list with fewer than two elements — however
well-named — fails with an out-of-range index error rather than
constructing a `Batch`. -/
theorem C10_batchInit_needs_two (opts : Opts) (expts : List Experiment)
    (h : expts.length < 2) : batchInit opts expts = .error .indexError := by
  have h1 : expts[1]? = none := by
    rw [List.getElem?_eq_none]
    omega
  simp [batchInit, h1]

/-- Witness for C10: a valid singleton list (named prefix-then-1) is
rejected with the index error. -/
theorem C10_batchInit_needs_two_witness :
    ([mkSimpleExpt "run-1"] : List Experiment).length < 2 ∧
    batchInit optsA [mkSimpleExpt "run-1"] = .error .indexError :=
  ⟨by decide, C10_batchInit_needs_two optsA [mkSimpleExpt "run-1"] (by decide)⟩

/-- C7: for every `Script` over `N` experiments with scheduler task-array
limit `L`: the sleeper mechanism is engaged exactly when `0 < L < N`; the
job-array size is `N` when the sleeper is not engaged and `L` when it is;
and when engaged the generated sleeper script drives `ceil(N/L)`
successive waves at offsets `k·L`. -/
theorem C7_script_task_array (opts : Opts) (n_expt : Nat) :
    ((scriptInit opts n_expt).need_sleeper = true ↔
      (0 < opts.task_limit ∧ opts.task_limit < n_expt)) ∧
    (¬(0 < opts.task_limit ∧ opts.task_limit < n_expt) →
      (scriptInit opts n_expt).task_size = n_expt) ∧
    ((0 < opts.task_limit ∧ opts.task_limit < n_expt) →
      (scriptInit opts n_expt).task_size = opts.task_limit ∧
      (scriptInit opts n_expt).sleeperWaveOffsets =
        (List.range (natCeilDiv n_expt opts.task_limit)).map
          (fun k => k * opts.task_limit)) := by
  refine ⟨by simp [scriptInit], fun h => by simp [scriptInit, h], fun h => ⟨?_, ?_⟩⟩
  · simp [scriptInit, h]
  · simp [ScriptS.sleeperWaveOffsets, ScriptS.sleeperNSleep, scriptInit, h]

/-- Witness for C7: with `N = 10` and `L = 0` the array covers all ten
tasks; with `L = 3` the sleeper is engaged, the array is capped at three
tasks, and the waves run at offsets 0, 3, 6, 9. -/
theorem C7_script_task_array_witness :
    (scriptInit optsA 10).task_size = 10 ∧
    (scriptInit { optsA with task_limit := 3 } 10).task_size = 3 ∧
    (scriptInit { optsA with task_limit := 3 } 10).sleeperWaveOffsets = [0, 3, 6, 9] := by
  refine ⟨(C7_script_task_array optsA 10).2.1 (by decide), ?_, ?_⟩
  · exact ((C7_script_task_array { optsA with task_limit := 3 } 10).2.2 (by decide)).1
  · exact (((C7_script_task_array { optsA with task_limit := 3 } 10).2.2 (by decide)).2).trans
      (by decide)

theorem list_set_self {α : Type} (l : List α) (i : Nat) (a : α)
    (h : l[i]? = some a) : l.set i a = l := by
  have hi : i < l.length := (List.getElem?_eq_some.mp h).1
  apply List.ext_getElem?
  intro n
  by_cases hn : i = n
  · subst hn
    rw [List.getElem?_set_eq_of_lt a hi, h]
  · rw [List.getElem?_set_ne hn]

/-- C8 (failing draw): a one-of `Sample` over the two options "a" and "b"
has `maximum = len(options) = 2`, and `sample()` draws
`rnd.randint(0, len(options))` — Python's `randint` is inclusive of both
bounds, so the draw `2` is legal, is not a valid position in the option
list (positions are 0 and 1), and makes `self.options[rint]` raise
`IndexError`. -/
theorem C8_sample_oneOf_index_bug :
    sampleOneOfC8.options.length = 2 ∧
    randintCanReturn 0 (sampleOneOfC8.options.length : Int) 2 ∧
    ¬((2 : Int) ≤ (sampleOneOfC8.options.length : Int) - 1) ∧
    sampleDraw 1 (rngConst 2) [sampleOneOfC8] 0 = some (.error "IndexError") := by
  refine ⟨by decide, by decide, by decide, rfl⟩

/-- C3: for every pair of samples at distinct arena indices `a`, `b` whose
minimum bounds reference each other and neither of which has a cached
draw, resolving `a`'s minimum bound terminates (the result is the same
for every fuel of at least 2, with no further recursion) and fails with
the circular-reference error naming the parameter, instead of recursing
indefinitely. -/
theorem C3_minimumValue_circular
    (st : List SampleS) (a b : Nat) (A B : SampleS)
    (hab : a ≠ b)
    (ha : st[a]? = some A) (hb : st[b]? = some B)
    (hAmin : A.minimum = .sRef b) (hBmin : B.minimum = .sRef a)
    (hAmp : A.min_is_param = true) (hBmp : B.min_is_param = true)
    (hAoo : A.one_of = false) (hBoo : B.one_of = false)
    (hAch : A.isChooser = false) (hBch : B.isChooser = false)
    (hAs : A.sampled = false) (hBs : B.sampled = false)
    (hAt : A.tagged = false) (hBt : B.tagged = false) :
    ∀ fuel, 2 ≤ fuel →
      minimumValue fuel st a =
        some (.error ("circular references: " ++ B.varname)) := by
  intro fuel hf
  obtain ⟨f, rfl⟩ : ∃ f, fuel = f + 2 := ⟨fuel - 2, by omega⟩
  obtain ⟨Av, Aich, Aco, Adt, Ase, Amin, Amax, Aopt, Aoo, Amp, Amxp, Asm, Als, Atg⟩ := A
  obtain ⟨Bv, Bich, Bco, Bdt, Bse, Bmin, Bmax, Bopt, Boo, Bmp, Bmxp, Bsm, Bls, Btg⟩ := B
  dsimp only at hAmin hBmin hAmp hBmp hAoo hBoo hAch hBch hAs hBs hAt hBt ⊢
  subst hAmin hBmin hAmp hBmp hAoo hBoo hAch hBch hAs hBs hAt hBt
  have hb1 : (st.set a
      ⟨Av, false, Aco, Adt, Ase, .sRef b, Amax, Aopt, false, true, Amxp, false, Als, true⟩)[b]?
      = some ⟨Bv, false, Bco, Bdt, Bse, .sRef a, Bmax, Bopt, false, true, Bmxp, false, Bls, false⟩ := by
    rw [List.getElem?_set_ne hab, hb]
  have ha1 : ((st.set a
      ⟨Av, false, Aco, Adt, Ase, .sRef b, Amax, Aopt, false, true, Amxp, false, Als, true⟩).set b
      ⟨Bv, false, Bco, Bdt, Bse, .sRef a, Bmax, Bopt, false, true, Bmxp, false, Bls, true⟩)[a]?
      = some ⟨Av, false, Aco, Adt, Ase, .sRef b, Amax, Aopt, false, true, Amxp, false, Als, true⟩ := by
    rw [List.getElem?_set_ne (Ne.symm hab),
      List.getElem?_set_eq_of_lt _ (List.getElem?_eq_some.mp ha).1]
  show minimumValue (f + 1 + 1) st a = _
  rw [minimumValue]
  simp only [ha]
  rw [minimumValue]
  simp only [hb1, ha1]
  simp

/-- Witness for C3: the concrete two-sample arena `stC3` (A.min → B,
B.min → A) fails with the circular-reference error at fuel 2. -/
theorem C3_minimumValue_circular_witness :
    minimumValue 2 stC3 0 = some (.error "circular references: B") :=
  C3_minimumValue_circular stC3 0 1 (sampleRefMin "A" 1) (sampleRefMin "B" 0)
    (by decide) rfl rfl rfl rfl rfl rfl rfl rfl rfl rfl rfl rfl rfl rfl
    2 (by omega)

/-- C4: (1) while a referenced sample's draw is cached (`sampled` set and
no intervening `newSample()`), resolving a bound that references it
returns exactly the cached `last_sample` and leaves the arena unchanged,
at every recursion fuel; (2) `newSample()` clears the `sampled` flag,
invalidating the cache; (3) concretely, a sample over `[0, 10]` whose
sibling's bound references it draws 3 in one pass (the bound then
resolving to the cached 3, unchanged), and after `newSample()` the next
`sample()` call may draw a different value (7). -/
theorem C4_sample_cached_until_newSample :
    (∀ (st : List SampleS) (a b : Nat) (A B : SampleS) (fuel : Nat),
      a ≠ b → st[a]? = some A → st[b]? = some B →
      A.minimum = .sRef b → A.min_is_param = true → A.one_of = false →
      A.isChooser = false → A.tagged = false → B.sampled = true →
      minimumValue (fuel + 1) st a = some (.ok (B.last_sample, st))) ∧
    (∀ (st : List SampleS) (b : Nat) (B : SampleS), st[b]? = some B →
      newSample st b = st.set b { B with sampled := false }) ∧
    (∃ st1 st2,
      sampleDraw 2 (rngConst 3) stC4 1 = some (.ok (.i 3, st1)) ∧
      minimumValue 2 st1 0 = some (.ok (.i 3, st1)) ∧
      sampleDraw 2 (rngConst 7) (newSample st1 1) 1 = some (.ok (.i 7, st2)) ∧
      SVal.i 3 ≠ SVal.i 7) := by
  refine ⟨?_, ?_, ?_⟩
  · intro st a b A B fuel hab ha hb hAmin hAmp hAoo hAch hAt hBs
    obtain ⟨Av, Aich, Aco, Adt, Ase, Amin, Amax, Aopt, Aoo, Amp, Amxp, Asm, Als, Atg⟩ := A
    dsimp only at hAmin hAmp hAoo hAch hAt
    subst hAmin hAmp hAoo hAch hAt
    have hlt : a < st.length := (List.getElem?_eq_some.mp ha).1
    have hb1 : (st.set a
        ⟨Av, false, Aco, Adt, Ase, .sRef b, Amax, Aopt, false, true, Amxp, Asm, Als, true⟩)[b]?
        = some B := by
      rw [List.getElem?_set_ne hab, hb]
    have ha1 : (st.set a
        ⟨Av, false, Aco, Adt, Ase, .sRef b, Amax, Aopt, false, true, Amxp, Asm, Als, true⟩)[a]?
        = some ⟨Av, false, Aco, Adt, Ase, .sRef b, Amax, Aopt, false, true, Amxp, Asm, Als, true⟩ :=
      List.getElem?_set_eq_of_lt _ hlt
    rw [minimumValue]
    simp only [ha, hb1, hBs, ha1]
    simp only [List.set_set]
    rw [list_set_self _ _ _ ha]
    simp
  · intro st b B hb
    rw [newSample, hb]
  · exact ⟨_, _, rfl, rfl, rfl, by decide⟩

/-- Witness for C4: the cached-resolution part applied to the concrete
arena `stC4s`, in which index 1 has cached the draw 3. -/
theorem C4_sample_cached_until_newSample_witness :
    minimumValue 1 stC4s 0 = some (.ok (.i 3, stC4s)) :=
  C4_sample_cached_until_newSample.1 stC4s 0 1 (sampleRefMin "A" 1)
    { intSample "B" with sampled := true, last_sample := .i 3 } 0
    (by decide) rfl rfl rfl rfl rfl rfl rfl rfl

theorem lt_div_succ_mul (a b : Nat) (hb : 0 < b) : a < (a / b + 1) * b := by
  have h := Nat.mod_lt a hb
  have h2 := Nat.div_add_mod a b
  nlinarith [h, h2]

theorem natCeilDiv_le_mul (L G : Nat) (hG : 0 < G) : L ≤ natCeilDiv L G * G := by
  rw [natCeilDiv]
  have h := lt_div_succ_mul (L + G - 1) G hG
  rw [Nat.succ_mul] at h
  set x := (L + G - 1) / G * G with hx
  omega

theorem natCeilDiv_mul_lt (L G : Nat) (hG : 0 < G) (hL : 0 < L) :
    (natCeilDiv L G - 1) * G < L := by
  rw [natCeilDiv]
  have h2 : (L + G - 1) / G * G ≤ L + G - 1 := Nat.div_mul_le_self _ _
  rcases Nat.eq_zero_or_pos ((L + G - 1) / G) with hq | hq
  · rw [hq]
    simpa using hL
  · obtain ⟨q, hqe⟩ : ∃ q, (L + G - 1) / G = q + 1 :=
      ⟨_, (Nat.succ_pred_eq_of_pos hq).symm⟩
    rw [hqe] at h2 ⊢
    rw [Nat.succ_mul] at h2
    simp only [Nat.add_sub_cancel]
    generalize q * G = y at h2 ⊢
    omega

theorem rangeMap_getD {α : Type} (n : Nat) (f : Nat → α) (i : Nat) (d : α)
    (h : i < n) : ((List.range n).map f).getD i d = f i := by
  rw [List.getD_eq_getElem?_getD]
  simp [List.getElem?_map, List.getElem?_range h]

/-- C6: when writing `N` experiments with maximum-entries-per-document
threshold `T = opts.max_batch` and group size `G = opts.batch_size`: if
`N ≤ T`, exactly one document is written, containing all `N` experiments;
otherwise `ceil(N/G)` documents are written, numbered 1-based with
zero-padding sized to the document count, each holding `G` experiments
except a possibly shorter (but non-empty) last one. -/
theorem C6_writeExperimentsToFile (file_name : String) (expts : List Experiment)
    (opts : Opts) (hG : 0 < opts.batch_size) :
    (expts.length ≤ opts.max_batch →
      writeExperimentsToFile file_name expts opts =
        [(file_name,
          if opts.progress then expts.map (Experiment.addProgress opts) else expts)]) ∧
    (opts.max_batch < expts.length →
      (writeExperimentsToFile file_name expts opts).length =
        natCeilDiv expts.length opts.batch_size ∧
      (∀ i, i < natCeilDiv expts.length opts.batch_size →
        ((writeExperimentsToFile file_name expts opts).getD i ("", [])).1 =
          strDropLast file_name 4 ++ "-" ++
            padNum (nDigits (natCeilDiv expts.length opts.batch_size)) (i + 1) ++ ".xml" ∧
        (i + 1 < natCeilDiv expts.length opts.batch_size →
          ((writeExperimentsToFile file_name expts opts).getD i ("", [])).2.length =
            opts.batch_size) ∧
        (i + 1 = natCeilDiv expts.length opts.batch_size →
          ((writeExperimentsToFile file_name expts opts).getD i ("", [])).2.length =
            expts.length - i * opts.batch_size ∧
          0 < expts.length - i * opts.batch_size ∧
          expts.length - i * opts.batch_size ≤ opts.batch_size))) := by
  have hxlen : (if opts.progress then expts.map (Experiment.addProgress opts)
      else expts).length = expts.length := by
    split <;> simp
  constructor
  · intro h
    simp only [writeExperimentsToFile]
    rw [if_pos (by rw [hxlen]; omega)]
  · intro h
    simp only [writeExperimentsToFile]
    rw [if_neg (by rw [hxlen]; omega)]
    rw [hxlen]
    refine ⟨by simp, ?_⟩
    intro i hi
    rw [rangeMap_getD _ _ _ _ hi]
    dsimp only
    have hL : 0 < expts.length := by omega
    have hn1 : 0 < natCeilDiv expts.length opts.batch_size := by omega
    have key1 := natCeilDiv_le_mul expts.length opts.batch_size hG
    have key2 := natCeilDiv_mul_lt expts.length opts.batch_size hG hL
    have hsm : natCeilDiv expts.length opts.batch_size * opts.batch_size =
        (natCeilDiv expts.length opts.batch_size - 1) * opts.batch_size +
          opts.batch_size := by
      conv_lhs => rw [show natCeilDiv expts.length opts.batch_size =
        (natCeilDiv expts.length opts.batch_size - 1) + 1 from by omega]
      rw [Nat.succ_mul]
    have him : (i + 1) * opts.batch_size = i * opts.batch_size + opts.batch_size :=
      Nat.succ_mul i opts.batch_size
    have hle : i + 1 < natCeilDiv expts.length opts.batch_size →
        i * opts.batch_size + opts.batch_size ≤
          (natCeilDiv expts.length opts.batch_size - 1) * opts.batch_size := by
      intro hh
      rw [← him]
      exact Nat.mul_le_mul_right opts.batch_size (by omega)
    have hlast : i + 1 = natCeilDiv expts.length opts.batch_size →
        i * opts.batch_size = (natCeilDiv expts.length opts.batch_size - 1) *
          opts.batch_size := by
      intro hh
      congr 1
      omega
    refine ⟨rfl, ?_, ?_⟩
    · intro hh
      rw [List.length_take, List.length_drop, hxlen]
      have h1 := hle hh
      generalize i * opts.batch_size = A at h1 ⊢
      generalize (natCeilDiv expts.length opts.batch_size - 1) * opts.batch_size = B at h1 key2 hsm
      omega
    · intro hh
      rw [List.length_take, List.length_drop, hxlen]
      have h1 := hlast hh
      rw [h1]
      generalize (natCeilDiv expts.length opts.batch_size - 1) * opts.batch_size = B at key2 hsm ⊢
      omega

/-- Witness for C6: twelve experiments, threshold 10, group size 5 give
three documents of 5, 5 and 2 experiments named with suffixes -1, -2, -3. -/
theorem C6_writeExperimentsToFile_witness :
    (writeExperimentsToFile "foo.xml" es12C6 optsC6).length = 3 ∧
    ((writeExperimentsToFile "foo.xml" es12C6 optsC6).getD 0 ("", [])).2.length = 5 ∧
    ((writeExperimentsToFile "foo.xml" es12C6 optsC6).getD 2 ("", [])).2.length = 2 ∧
    ((writeExperimentsToFile "foo.xml" es12C6 optsC6).getD 2 ("", [])).1 = "foo-3.xml" := by
  have h := (C6_writeExperimentsToFile "foo.xml" es12C6 optsC6 (by decide)).2 (by decide)
  have h0 := h.2 0 (by decide)
  have h2 := h.2 2 (by decide)
  refine ⟨h.1.trans (by decide), ?_, ?_, ?_⟩
  · exact (h0.2.1 (by decide)).trans (by decide)
  · exact ((h2.2.2 (by decide)).1).trans (by decide)
  · exact h2.1.trans (by decide)

theorem batchLoop_ok_names : ∀ (es : List Experiment) (seen : List String)
    (pfx : String) (runs : Nat) (r : String × Nat),
    batchLoop es seen pfx runs = .ok r →
    (∀ x ∈ es.map (fun ex => ex.name), x ∉ seen) ∧
      (es.map (fun ex => ex.name)).Nodup := by
  intro es
  induction es with
  | nil => intro seen pfx runs r _; simp
  | cons ex rest ih =>
    intro seen pfx runs r h
    rw [batchLoop] at h
    by_cases hm : ex.name ∈ seen
    · simp [hm] at h
    · simp only [hm, if_false] at h
      obtain ⟨h1, h2⟩ := ih _ _ _ _ h
      refine ⟨?_, ?_⟩
      · intro x hx
        simp only [List.map_cons, List.mem_cons] at hx
        rcases hx with rfl | hx
        · exact hm
        · intro hc
          exact (h1 x hx) (List.mem_cons_of_mem _ hc)
      · simp only [List.map_cons, List.nodup_cons]
        refine ⟨?_, h2⟩
        intro hc
        exact (h1 _ hc) (List.mem_cons_self _ _)

theorem checkNamesFrom_ok : ∀ (k i : Nat) (names : List String)
    (pfx : String) (nd : Nat), checkNamesFrom names pfx nd i k = .ok () →
    ∀ t, t < k → (pfx ++ padNum nd (i + t + 1)) ∈ names := by
  intro k
  induction k with
  | zero => intro i names pfx nd _ t ht; omega
  | succ m ih =>
    intro i names pfx nd h t ht
    rw [checkNamesFrom] at h
    by_cases hm : (pfx ++ padNum nd (i + 1)) ∈ names
    · simp only [hm, if_true] at h
      rcases Nat.eq_zero_or_pos t with rfl | hpos
      · simpa using hm
      · have := ih (i + 1) names pfx nd h (t - 1) (by omega)
        have harith : i + 1 + (t - 1) + 1 = i + t + 1 := by omega
        rwa [harith] at this
    · simp [hm] at h

/-- C5: (1) whenever `Batch.__init__` succeeds, the supplied experiment
names are exactly (a permutation of) the common prefix followed by the
1-based zero-padded indices `1 … N`, with no duplicates and no gaps;
(2) the concrete violation — names `run-1 … run-9` with `run-5` missing —
raises the internal-consistency (bug) error naming `run-5` rather than
returning a `Batch`. -/
theorem C5_batchInit_name_check :
    (∀ (opts : Opts) (es : List Experiment) (b : BatchS),
      batchInit opts es = .ok b →
      (es.map (fun ex => ex.name)).Nodup ∧
      (es.map (fun ex => ex.name)).Perm
        ((List.range es.length).map
          (fun i => b.expt_name ++ padNum (nDigits es.length) (i + 1)))) ∧
    batchInit optsA es5C5 = .error (.missingName "run-5") := by
  constructor
  · intro opts es b h
    rw [batchInit] at h
    rcases h1 : es[1]? with _ | e1
    · rw [h1] at h; simp at h
    rw [h1] at h
    simp only at h
    rcases h2 : batchLoop es [] e1.name 0 with err | pr
    · rw [h2] at h; simp at h
    rw [h2] at h
    simp only at h
    by_cases h3 : pr.1 = ""
    · simp [h3] at h
    rw [if_neg h3] at h
    rcases h4 : checkNamesFrom (es.map (fun ex => ex.name)) pr.1 (nDigits es.length) 0
        es.length with err | u
    · rw [h4] at h; simp at h
    rw [h4] at h
    simp only [Except.ok.injEq] at h
    have hpfx : b.expt_name = pr.1 := by rw [← h]
    obtain ⟨-, hnodup⟩ := batchLoop_ok_names es [] e1.name 0 pr h2
    have hmem : ∀ t, t < es.length →
        (pr.1 ++ padNum (nDigits es.length) (t + 1)) ∈ es.map (fun ex => ex.name) := by
      intro t ht
      simpa using checkNamesFrom_ok es.length 0 (es.map (fun ex => ex.name)) pr.1
        (nDigits es.length) (by cases u; exact h4) t ht
    refine ⟨hnodup, ?_⟩
    have hinj : Function.Injective
        (fun i => pr.1 ++ padNum (nDigits es.length) (i + 1)) := by
      intro x y hxy
      have := padNum_injective (nDigits es.length) (x + 1) (y + 1)
        (strAppend_left_cancel hxy)
      omega
    have hE : ((List.range es.length).map
        (fun i => pr.1 ++ padNum (nDigits es.length) (i + 1))).Nodup :=
      (List.nodup_range _).map hinj
    have hsub : ((List.range es.length).map
        (fun i => pr.1 ++ padNum (nDigits es.length) (i + 1)))
        ⊆ es.map (fun ex => ex.name) := by
      intro x hx
      simp only [List.mem_map, List.mem_range] at hx
      obtain ⟨i, hi, rfl⟩ := hx
      exact hmem i hi
    have hperm : ((List.range es.length).map
        (fun i => pr.1 ++ padNum (nDigits es.length) (i + 1))).Perm
        (es.map (fun ex => ex.name)) :=
      (List.subperm_of_subset hE hsub).perm_of_length_le (by simp)
    rw [hpfx]
    exact hperm.symm
  · rfl

/-- Witness for C5: a correctly named pair x1, x2 passes the check and its
names are exactly the prefix x followed by 1, 2. -/
theorem C5_batchInit_name_check_witness :
    (es2C5.map (fun ex => ex.name)).Nodup ∧
    (es2C5.map (fun ex => ex.name)).Perm
      ((List.range es2C5.length).map
        (fun i => "x" ++ padNum (nDigits es2C5.length) (i + 1))) := by
  have hb : batchInit optsA es2C5 = .ok
      { n_expt := 2, n_expt_digits := nDigits 2, xml := optsA.arg_xml,
        task_limit := optsA.task_limit, n_batch := 1,
        n_batch_digits := nDigits 1, batch_size := 2, expt_name := "x",
        n_runs := 2, script := scriptInit optsA 2 } := rfl
  exact C5_batchInit_name_check.1 optsA es2C5 _ hb

theorem dictInsert_fresh : ∀ (acc : List CtrEntry) (v : String) (m : Nat),
    (∀ c ∈ acc, c.varName ≠ v) → dictInsert acc v m = acc ++ [⟨v, 0, m⟩] := by
  intro acc
  induction acc with
  | nil => intro v m _; rfl
  | cons c rest ih =>
    intro v m h
    rw [dictInsert]
    rw [if_neg (h c (List.mem_cons_self c rest))]
    rw [ih v m (fun d hd => h d (List.mem_cons_of_mem c hd))]
    rfl

theorem foldl_dictInsert_fresh {α : Type} (key : α → String) (mval : α → Nat) :
    ∀ (l : List α) (acc : List CtrEntry),
    ((acc.map (fun c => c.varName)) ++ l.map key).Nodup →
    l.foldl (fun a p => dictInsert a (key p) (mval p)) acc =
      acc ++ l.map (fun p => (⟨key p, 0, mval p⟩ : CtrEntry)) := by
  intro l
  induction l with
  | nil => intro acc _; simp
  | cons p rest ih =>
    intro acc h
    simp only [List.foldl_cons]
    have hfresh : ∀ c ∈ acc, c.varName ≠ key p := by
      intro c hc hceq
      have h1 : key p ∈ acc.map (fun c => c.varName) := by
        simp only [List.mem_map]
        exact ⟨c, hc, hceq⟩
      have h2 : key p ∈ (p :: rest).map key := by simp
      exact (List.disjoint_of_nodup_append h) h1 h2
    rw [dictInsert_fresh acc (key p) (mval p) hfresh]
    have hnd : (((acc ++ [(⟨key p, 0, mval p⟩ : CtrEntry)]).map
        (fun c => c.varName)) ++ rest.map key).Nodup := by
      simp only [List.map_append, List.map_cons, List.map_nil] at h ⊢
      simp only [List.append_assoc]
      simpa using h
    rw [ih _ hnd]
    simp

theorem foldl_skipIf (opts : Opts) (g : List CtrEntry → EnumeratedValue → List CtrEntry) :
    ∀ (l : List EnumeratedValue) (acc : List CtrEntry),
    l.foldl (fun a p => if opts.isParamSet p.varName then a else g a p) acc =
      (l.filter (fun p => ! opts.isParamSet p.varName)).foldl g acc := by
  intro l
  induction l with
  | nil => intro acc; rfl
  | cons p rest ih =>
    intro acc
    simp only [List.foldl_cons, List.filter_cons]
    by_cases hp : opts.isParamSet p.varName = true
    · simp only [hp, if_true, Bool.not_true, if_false]
      exact ih acc
    · simp only [Bool.not_eq_true] at hp
      simp only [hp, Bool.false_eq_true, if_false, Bool.not_false, if_true,
        List.foldl_cons]
      exact ih (g acc p)

theorem buildCounters_eq (e : Experiment) (opts : Opts)
    (h : (countedVars e opts).Nodup) :
    buildCounters e opts = baseEntries e opts := by
  simp only [buildCounters]
  rw [foldl_skipIf]
  rw [countedVars] at h
  have h1 : ((([] : List CtrEntry).map (fun c => c.varName)) ++
      e.steppedValueSet.map (fun p => p.varName)).Nodup := by
    simp only [List.map_nil, List.nil_append]
    exact (List.Nodup.of_append_left h)
  rw [foldl_dictInsert_fresh (fun p => p.varName) (fun p => p.values.length)
    e.steppedValueSet [] h1]
  have h2 : (((e.steppedValueSet.map
      (fun p => (⟨p.varName, 0, p.values.length⟩ : CtrEntry))).map
        (fun c => c.varName)) ++
      (e.enumeratedValueSet.filter (fun p => ! opts.isParamSet p.varName)).map
        (fun p => p.varName)).Nodup := by
    simpa [List.map_map, Function.comp] using h
  rw [List.nil_append]
  exact foldl_dictInsert_fresh (fun p : EnumeratedValue => p.varName)
    (fun p : EnumeratedValue => p.values.length) _ _ h2

theorem ctrVal_lt_prod : ∀ l, ctrValid l → ctrVal l < prodMaxes l := by
  intro l
  induction l with
  | nil => intro _; simp [ctrVal, prodMaxes]
  | cons c rest ih =>
    intro h
    have hc : c.ctr < c.max := h c (List.mem_cons_self c rest)
    have hrest : ctrValid rest := fun d hd => h d (List.mem_cons_of_mem c hd)
    have hr := ih hrest
    simp only [ctrVal, prodMaxes, List.map_cons, List.prod_cons]
    calc c.ctr + c.max * ctrVal rest < c.max + c.max * ctrVal rest := by omega
    _ = c.max * (ctrVal rest + 1) := by ring
    _ ≤ c.max * (rest.map (fun d => d.max)).prod := by
        exact Nat.mul_le_mul_left c.max (by rw [prodMaxes] at hr; omega)

theorem allZero_val_zero : ∀ l, allZero l = true → ctrVal l = 0 := by
  intro l
  induction l with
  | nil => intro _; rfl
  | cons c rest ih =>
    intro h
    simp only [allZero, List.all_cons, Bool.and_eq_true, decide_eq_true_eq] at h
    have := ih (by simp [allZero, h.2])
    simp [ctrVal, h.1, this]

theorem val_zero_allZero : ∀ l, ctrValid l → ctrVal l = 0 → allZero l = true := by
  intro l
  induction l with
  | nil => intro _ _; rfl
  | cons c rest ih =>
    intro hv h
    have hc : c.ctr < c.max := hv c (List.mem_cons_self c rest)
    have hrest : ctrValid rest := fun d hd => hv d (List.mem_cons_of_mem c hd)
    simp only [ctrVal] at h
    have h1 : c.ctr = 0 := by omega
    have h2 : c.max * ctrVal rest = 0 := by omega
    have h3 : ctrVal rest = 0 := by
      rcases Nat.mul_eq_zero.mp h2 with hh | hh
      · omega
      · exact hh
    simp only [allZero, List.all_cons, Bool.and_eq_true, decide_eq_true_eq]
    exact ⟨h1, by simpa [allZero] using ih hrest h3⟩

theorem incr_maxes : ∀ l, (incrCounters l).map (fun c => c.max) =
    l.map (fun c => c.max) := by
  intro l
  induction l with
  | nil => rfl
  | cons c rest ih =>
    rw [incrCounters]
    split
    · simp [ih]
    · simp

theorem incr_prodMaxes (l : List CtrEntry) :
    prodMaxes (incrCounters l) = prodMaxes l := by
  rw [prodMaxes, prodMaxes, incr_maxes]

theorem incr_valid_val : ∀ l, ctrValid l →
    ctrValid (incrCounters l) ∧
      ctrVal (incrCounters l) = (ctrVal l + 1) % prodMaxes l := by
  intro l
  induction l with
  | nil =>
    intro _
    refine ⟨fun c hc => by simp [incrCounters] at hc, ?_⟩
    simp [incrCounters, ctrVal, prodMaxes]
  | cons c rest ih =>
    intro h
    have hc : c.ctr < c.max := h c (List.mem_cons_self c rest)
    have hrest : ctrValid rest := fun d hd => h d (List.mem_cons_of_mem c hd)
    obtain ⟨ihv, ihe⟩ := ih hrest
    have hrlt := ctrVal_lt_prod rest hrest
    rw [incrCounters]
    by_cases heq : c.ctr + 1 = c.max
    · rw [if_pos heq]
      constructor
      · intro d hd
        rcases List.mem_cons.mp hd with rfl | hd2
        · simp only
          omega
        · exact ihv d hd2
      · simp only [ctrVal, prodMaxes, List.map_cons, List.prod_cons]
        rw [ihe]
        have hexp : c.ctr + c.max * ctrVal rest + 1 = c.max * (ctrVal rest + 1) := by
          rw [Nat.mul_add]
          omega
        rw [hexp, Nat.mul_mod_mul_left, prodMaxes]
        omega
    · rw [if_neg heq]
      constructor
      · intro d hd
        rcases List.mem_cons.mp hd with rfl | hd2
        · simp only
          omega
        · exact h d (List.mem_cons_of_mem c hd2)
      · simp only [ctrVal, prodMaxes, List.map_cons, List.prod_cons]
        have hlt : c.ctr + 1 + c.max * ctrVal rest <
            c.max * (rest.map (fun d => d.max)).prod := by
          calc c.ctr + 1 + c.max * ctrVal rest < c.max + c.max * ctrVal rest := by omega
          _ = c.max * (ctrVal rest + 1) := by ring
          _ ≤ c.max * (rest.map (fun d => d.max)).prod := by
              exact Nat.mul_le_mul_left c.max (by rw [prodMaxes] at hrlt; omega)
        rw [Nat.mod_eq_of_lt (by omega)]
        omega

theorem emitChildren_spec (e : Experiment) (opts : Opts) (n nd : Nat)
    (useMetrics : List String) (reps : Nat) :
    ∀ (cnt : Nat) (ev : List EnumeratedValue) (i : Nat),
    (emitChildren e opts n nd useMetrics reps cnt ev i).1.map (fun c => c.name) =
      (List.range cnt).map (fun t => mkChildName e.name nd (i + t)) ∧
    (emitChildren e opts n nd useMetrics reps cnt ev i).1.length = cnt ∧
    (emitChildren e opts n nd useMetrics reps cnt ev i).2.2 = i + cnt := by
  intro cnt
  induction cnt with
  | zero => intro ev i; exact ⟨rfl, rfl, rfl⟩
  | succ j ih =>
    intro ev i
    obtain ⟨ih1, ih2, ih3⟩ := ih (ev ++ dirfileEntries opts e.name i n) (i + 1)
    simp only [emitChildren]
    refine ⟨?_, ?_, ?_⟩
    · simp only [List.map_cons, ih1, experimentInit]
      rw [List.range_succ_eq_map]
      simp only [List.map_cons, List.map_map]
      congr 1
      apply List.map_congr_left
      intro t _
      congr 1
      omega
    · simp only [List.length_cons, ih2]
    · rw [ih3]
      omega

theorem uniqueLoop_spec (e : Experiment) (opts : Opts) (n nd : Nat)
    (useMetrics : List String) (reps cnt : Nat) :
    ∀ (fuel : Nat) (s : List CtrEntry) (i : Nat) (acc : List Experiment),
    ctrValid s → prodMaxes s - ctrVal s ≤ fuel →
    ∃ res, uniqueLoop e opts n nd useMetrics reps cnt fuel s i acc = some res ∧
      res.map (fun c => c.name) = acc.map (fun c => c.name) ++
        (List.range (cnt * (prodMaxes s - ctrVal s))).map
          (fun t => mkChildName e.name nd (i + t)) ∧
      res.length = acc.length + cnt * (prodMaxes s - ctrVal s) := by
  intro fuel
  induction fuel with
  | zero =>
    intro s i acc hv hf
    have := ctrVal_lt_prod s hv
    omega
  | succ f ih =>
    intro s i acc hv hf
    have hlt := ctrVal_lt_prod s hv
    obtain ⟨hv2, he2⟩ := incr_valid_val s hv
    obtain ⟨ec1, ec2, ec3⟩ := emitChildren_spec e opts n nd useMetrics reps cnt
      (emitBase e opts s) i
    simp only [uniqueLoop]
    by_cases hz : allZero (incrCounters s) = true
    · rw [if_pos hz]
      have hz0 : ctrVal (incrCounters s) = 0 := allZero_val_zero _ hz
      have hD : prodMaxes s - ctrVal s = 1 := by
        rw [he2] at hz0
        rcases Nat.lt_or_ge (ctrVal s + 1) (prodMaxes s) with hc | hc
        · rw [Nat.mod_eq_of_lt hc] at hz0
          omega
        · omega
      refine ⟨_, rfl, ?_, ?_⟩
      · rw [List.map_append, ec1, hD]
        simp
      · rw [List.length_append, ec2, hD]
        simp
    · rw [if_neg hz]
      have hne : ctrVal s + 1 ≠ prodMaxes s := by
        intro hc
        apply hz
        apply val_zero_allZero _ hv2
        rw [he2, hc, Nat.mod_self]
      have hlt2 : ctrVal s + 1 < prodMaxes s := by omega
      have hval' : ctrVal (incrCounters s) = ctrVal s + 1 := by
        rw [he2, Nat.mod_eq_of_lt hlt2]
      have hprod' : prodMaxes (incrCounters s) = prodMaxes s := incr_prodMaxes s
      obtain ⟨res, hres, hnames, hlen⟩ := ih (incrCounters s)
        ((emitChildren e opts n nd useMetrics reps cnt (emitBase e opts s) i).2.2)
        (acc ++ (emitChildren e opts n nd useMetrics reps cnt (emitBase e opts s) i).1)
        hv2 (by rw [hprod', hval']; omega)
      refine ⟨res, hres, ?_, ?_⟩
      · rw [hnames, hprod', hval', ec3]
        rw [List.map_append, ec1]
        rw [List.append_assoc]
        congr 1
        have hsplit : cnt * (prodMaxes s - ctrVal s) =
            cnt + cnt * (prodMaxes s - (ctrVal s + 1)) := by
          have h1 : prodMaxes s - ctrVal s = (prodMaxes s - (ctrVal s + 1)) + 1 := by
            omega
          rw [h1, Nat.mul_succ]
          omega
        rw [hsplit, List.range_add, List.map_append, List.map_map]
        congr 1
        apply List.map_congr_left
        intro t _
        simp only [Function.comp_apply]
        congr 1
        omega
      · rw [hlen, hprod', hval', List.length_append, ec2]
        have h1 : prodMaxes s - ctrVal s = (prodMaxes s - (ctrVal s + 1)) + 1 := by
          omega
        rw [h1, Nat.mul_succ]
        omega

theorem foldl_mul_prod {α : Type} (f : α → Nat) :
    ∀ (l : List α) (r : Nat), l.foldl (fun a x => a * f x) r = r * (l.map f).prod := by
  intro l
  induction l with
  | nil => intro r; simp
  | cons p rest ih =>
    intro r
    simp only [List.foldl_cons, List.map_cons, List.prod_cons, ih]
    ring

theorem getNRuns_eq (e : Experiment) :
    e.getNRuns = e.repetitions *
      ((e.steppedValueSet.map (fun p => p.values.length)).prod *
        (e.enumeratedValueSet.map (fun p => p.values.length)).prod) := by
  simp only [Experiment.getNRuns]
  rw [foldl_mul_prod, foldl_mul_prod]
  ring

theorem prod_filter_unpinned (opts : Opts) : ∀ (l : List EnumeratedValue),
    (∀ p ∈ l, opts.isParamSet p.varName = true → p.values.length = 1) →
    (l.map (fun p => p.values.length)).prod =
      ((l.filter (fun p => ! opts.isParamSet p.varName)).map
        (fun p => p.values.length)).prod := by
  intro l
  induction l with
  | nil => intro _; rfl
  | cons p rest ih =>
    intro h
    have hrest := ih (fun q hq => h q (List.mem_cons_of_mem p hq))
    simp only [List.map_cons, List.prod_cons, List.filter_cons]
    by_cases hp : opts.isParamSet p.varName = true
    · rw [h p (List.mem_cons_self p rest) hp]
      simp only [hp, Bool.not_true, Bool.false_eq_true, if_false]
      rw [hrest]
      ring
    · simp only [Bool.not_eq_true] at hp
      simp only [hp, Bool.not_false, if_true, List.map_cons, List.prod_cons]
      rw [hrest]

theorem baseEntries_valid (e : Experiment) (opts : Opts)
    (hstep : ∀ p ∈ e.steppedValueSet, 0 < p.values.length)
    (henum : ∀ p ∈ e.enumeratedValueSet,
      opts.isParamSet p.varName = false → 0 < p.values.length) :
    ctrValid (baseEntries e opts) := by
  intro c hc
  rw [baseEntries] at hc
  rcases List.mem_append.mp hc with hc2 | hc2
  · obtain ⟨p, hp, rfl⟩ := List.mem_map.mp hc2
    simpa using hstep p hp
  · obtain ⟨p, hp, rfl⟩ := List.mem_map.mp hc2
    obtain ⟨hpmem, hpf⟩ := List.mem_filter.mp hp
    have hpn : opts.isParamSet p.varName = false := by
      simpa using hpf
    simpa using henum p hpmem hpn

theorem baseEntries_allZero (e : Experiment) (opts : Opts) :
    allZero (baseEntries e opts) = true := by
  rw [allZero, List.all_eq_true]
  intro c hc
  rw [baseEntries] at hc
  rcases List.mem_append.mp hc with hc2 | hc2 <;>
  · obtain ⟨p, hp, rfl⟩ := List.mem_map.mp hc2
    simp

theorem baseEntries_prod (e : Experiment) (opts : Opts) :
    prodMaxes (baseEntries e opts) = (countedCards e opts).prod := by
  rw [prodMaxes, baseEntries, countedCards]
  simp [List.map_append, List.map_map, Function.comp_def]

/-- C1 (amended): for every Experiment with repetitions `r ≥ 1` whose
counted (non-pinned) axes are non-empty and have distinct variables, and
every pinned axis has exactly one value, `uniqueSettings` returns exactly
`r · ∏(cardinalities)` children when repetitions are split out and
`∏(cardinalities)` children when they are not, and the children's names
are the parent's name, a dash, and the 1-based sequential index
zero-padded to the digit count of the number of children, with no
duplicates and no gaps.  (Without the single-valued-pinned-axes proviso
the pad width is computed from a run count that also multiplies in the
pinned cardinalities; see the counterexample.) -/
theorem C1_uniqueSettings_spec (e : Experiment) (opts : Opts)
    (hr : 0 < e.repetitions)
    (hvars : (countedVars e opts).Nodup)
    (hstep : ∀ p ∈ e.steppedValueSet, 0 < p.values.length)
    (henum : ∀ p ∈ e.enumeratedValueSet,
      opts.isParamSet p.varName = false → 0 < p.values.length)
    (hpin : ∀ p ∈ e.enumeratedValueSet,
      opts.isParamSet p.varName = true → p.values.length = 1) :
    ∃ res, e.uniqueSettings opts = some res ∧
      res.length = (if opts.split_reps then e.repetitions else 1) *
        (countedCards e opts).prod ∧
      res.map (fun c => c.name) = (List.range res.length).map
        (fun k => mkChildName e.name (nDigits res.length) (k + 1)) ∧
      (res.map (fun c => c.name)).Nodup := by
  have hvalid := baseEntries_valid e opts hstep henum
  have hval0 : ctrVal (baseEntries e opts) = 0 :=
    allZero_val_zero _ (baseEntries_allZero e opts)
  have hP := baseEntries_prod e opts
  obtain ⟨res, hres, hnames, hlen⟩ := uniqueLoop_spec e opts
    (if opts.split_reps then e.getNRuns else e.getNRuns / e.repetitions)
    (nDigits (if opts.split_reps then e.getNRuns else e.getNRuns / e.repetitions))
    (if opts.rng_param ≠ "" ∧ opts.rng_param ∉ e.metrics then
      e.metrics ++ [opts.rng_param] else e.metrics)
    (if opts.split_reps then 1 else e.repetitions)
    (e.repetitions / (if opts.split_reps then 1 else e.repetitions))
    (prodMaxes (baseEntries e opts) + 1) (baseEntries e opts) 1 []
    hvalid (by omega)
  have hcnt : e.repetitions / (if opts.split_reps then 1 else e.repetitions) =
      (if opts.split_reps then e.repetitions else 1) := by
    cases hsp : opts.split_reps
    · simp [Nat.div_self hr]
    · simp
  have hg : e.getNRuns = e.repetitions * (countedCards e opts).prod := by
    rw [getNRuns_eq]
    simp only [countedCards, List.prod_append]
    rw [prod_filter_unpinned opts e.enumeratedValueSet hpin]
  have hN : (if opts.split_reps then e.getNRuns else e.getNRuns / e.repetitions) =
      (if opts.split_reps then e.repetitions else 1) * (countedCards e opts).prod := by
    cases hsp : opts.split_reps
    · simp only [Bool.false_eq_true, if_false, hg, one_mul]
      exact Nat.mul_div_cancel_left _ hr
    · simp only [if_true, hg]
  simp only [List.length_nil, Nat.zero_add, hval0, Nat.sub_zero, hP, hcnt] at hlen
  simp only [List.map_nil, List.nil_append, hval0, Nat.sub_zero, hP, hcnt] at hnames
  refine ⟨res, ?_, hlen, ?_, ?_⟩
  · simp only [Experiment.uniqueSettings]
    rw [buildCounters_eq e opts hvars]
    exact hres
  · rw [hnames, hlen, ← hN]
    apply List.map_congr_left
    intro t _
    congr 1
    omega
  · rw [hnames]
    apply (List.nodup_range _).map
    intro a b hab
    have := mkChildName_injective e.name
      (nDigits (if opts.split_reps then e.getNRuns else e.getNRuns / e.repetitions))
      (1 + a) (1 + b) hab
    omega

/-- C1 (counterexample to the claim as stated): an experiment whose three
non-pinned axes each have one value (so the child count is 1), plus an
axis pinned by the option set ("rs", ten values).  `uniqueSettings` emits
its single child as "x-01": the pad width comes from `getNRuns`, which
multiplies in the pinned axis's ten values, not from the child count 1,
whose `digits` would give "x-1". -/
theorem C1_uniqueSettings_counterexample :
    (exptC1.uniqueSettings optsC1).map (fun l => l.map (fun c => c.name)) =
      some ["x-01"] ∧
    mkChildName "x" (nDigits 1) 1 = "x-1" ∧
    ("x-01" : String) ≠ "x-1" :=
  ⟨rfl, rfl, by decide⟩

/-- Witness for C1: the amended statement applied to an experiment with
axes of two and three values and one repetition gives six children named
x-1 … x-6, with no duplicates and no gaps. -/
theorem C1_uniqueSettings_spec_witness :
    ∃ res, exptC1b.uniqueSettings optsA = some res ∧
      res.map (fun c => c.name) = ["x-1", "x-2", "x-3", "x-4", "x-5", "x-6"] ∧
      (res.map (fun c => c.name)).Nodup := by
  obtain ⟨res, h1, h2, h3, h4⟩ := C1_uniqueSettings_spec exptC1b optsA
    (by decide) (by decide) (by decide) (by decide) (by decide)
  have hlen6 : res.length = 6 := by rw [h2]; decide
  refine ⟨res, h1, ?_, h4⟩
  rw [h3, hlen6]
  decide
